import Mathlib

/-!
Verification of the Market Sniper V4 signal engine (src/main.py).

The program works on IEEE-754 doubles, every one of which is a rational
number, so the embedding uses ℚ throughout.  The two genuinely
irrational external computations — the square root inside the sample
standard deviation and the standard-normal CDF of scipy — are passed in
as function parameters (sqrtF, phiF) so that every definition stays
executable; no claim depends on their values beyond sqrtF 0 = 0.
Division by zero follows the Lean convention x / 0 = 0; the places
this differs from float semantics (RSI with zero average loss, drawdown
with zero trailing maximum, and the sample variance of a single-point
series, where pandas yields NaN and the program propagates it into the
z-score) are flagged in comments, and every theorem touching one of
them carries a hypothesis ruling the case out.
-/

namespace MarketSniper

/-- Risk tiers of lines 84-87 of main.py: the source strings are
    "通常"/"注意"/"危険" with colors green/#ffcc00/red. -/
inductive Tier where
  | normal
  | caution
  | danger
deriving DecidableEq, Repr

/-- Display label of each tier, exactly the strings assigned on lines 84-87. -/
def Tier.label : Tier → String
  | .normal => "通常"
  | .caution => "注意"
  | .danger => "危険"

/-- Badge color of each tier, exactly the strings assigned on lines 84-87. -/
def Tier.color : Tier → String
  | .normal => "green"
  | .caution => "#ffcc00"
  | .danger => "red"

/-- Severity order used to compare tiers: Normal < Caution < Danger. -/
def Tier.severity : Tier → Nat
  | .normal => 0
  | .caution => 1
  | .danger => 2

/-- Lines 84-87 of main.py:
    risk = "通常"; if abs(z) > 1.5: risk = "注意"; if abs(z) > 2.0: risk = "危険".
    The float literals 1.5 and 2.0 are exactly 3/2 and 2. -/
def classify (z : ℚ) : Tier :=
  let risk := Tier.normal
  let risk := if |z| > 3 / 2 then Tier.caution else risk
  let risk := if |z| > 2 then Tier.danger else risk
  risk

/-- Last element, df.Close.iloc[-1] on line 59 (the engine only evaluates it
    on a non-empty series, guarded by the df.empty check on line 54). -/
def currentOf (s : List ℚ) : ℚ := s.getLastD 0

/-- Arithmetic mean, df.Close.mean() on line 68. -/
def meanOf (s : List ℚ) : ℚ := s.sum / s.length

/-- Sample variance (pandas ddof=1), the square of df.Close.std() on line 67.
    For a single-point series this gives 0 by the x / 0 = 0 convention where
    pandas gives NaN (and the code then computes a NaN z-score); theorems
    about the z-score therefore require at least two points. -/
def svar (s : List ℚ) : ℚ :=
  (s.map (fun x => (x - meanOf s) ^ 2)).sum / ((s.length : ℚ) - 1)

/-- Lines 67-70 of main.py: z = (current - mean) / std when std is nonzero,
    else 0.  std is the floating square root of the sample variance, modelled
    by the parameter sqrtF. -/
def z_score (sqrtF : ℚ → ℚ) (s : List ℚ) : ℚ :=
  if sqrtF (svar s) ≠ 0 then (currentOf s - meanOf s) / sqrtF (svar s) else 0

/-- pandas .tail(63) on line 80: the last min(63, n) elements. -/
def tail63 (s : List ℚ) : List ℚ := s.drop (s.length - 63)

/-- Maximum of a list, .max() on line 80 (0 on the empty list, unreached
    because the engine guards against empty series). -/
def maxVal : List ℚ → ℚ
  | [] => 0
  | [x] => x
  | x :: y :: t => max x (maxVal (y :: t))

/-- high_3m on line 80: maximum close over the trailing 63 bars. -/
def max63 (s : List ℚ) : ℚ := maxVal (tail63 s)

/-- Line 81 of main.py: drawdown = ((current - high_3m) / high_3m) * 100. -/
def drawdown (s : List ℚ) : ℚ :=
  (currentOf s - max63 s) / max63 s * 100

/-- Helper for series.diff() (line 27): differences against the previous
    element. -/
def diffGo : ℚ → List ℚ → List (Option ℚ)
  | _, [] => []
  | p, y :: ys => some (y - p) :: diffGo y ys

/-- series.diff() on line 27: none (NaN) at the first bar, then successive
    differences. -/
def diffL : List ℚ → List (Option ℚ)
  | [] => []
  | x :: xs => none :: diffGo x xs

/-- delta.where(delta > 0, 0) on line 28: keep positive deltas, else 0
    (the leading NaN compares false, hence 0). -/
def gainsOf (s : List ℚ) : List ℚ :=
  (diffL s).map (fun d => match d with
    | some x => if x > 0 then x else 0
    | none => 0)

/-- -delta.where(delta < 0, 0) on line 29: magnitude of negative deltas. -/
def lossesOf (s : List ℚ) : List ℚ :=
  (diffL s).map (fun d => match d with
    | some x => if x < 0 then -x else 0
    | none => 0)

/-- calculate_rsi (lines 26-31) evaluated at the most recent bar (line 76):
    the rolling 14-bar means are defined only from the 14th bar on (pandas
    min_periods), hence none for shorter series.  When the average loss is 0
    the floats give rs = inf and rsi = 100 while ℚ gives rs = 0; no theorem
    below depends on the rsi value. -/
def rsiLast (s : List ℚ) : Option ℚ :=
  if 14 ≤ s.length then
    let g := ((gainsOf s).drop (s.length - 14)).sum / 14
    let l := ((lossesOf s).drop (s.length - 14)).sum / 14
    some (100 - 100 / (1 + g / l))
  else none

/-- The per-instrument record appended to results_list on lines 89-94. -/
structure IndicatorResult where
  name : String
  price : ℚ
  change : ℚ
  pct : ℚ
  z : ℚ
  prob : ℚ
  risk : Tier
  rsi : Option ℚ
  drawdown : ℚ
  ticker_key : String
deriving DecidableEq, Repr

/-- Lines 58-94 of main.py: the whole per-instrument computation on a fetched
    series.  phiF models scipy norm.cdf (line 72). -/
def mkResult (sqrtF phiF : ℚ → ℚ) (nm : String) (s : List ℚ) : IndicatorResult :=
  let current := currentOf s
  let prevC := s.getD (s.length - 2) 0
  let change := if 1 < s.length then current - prevC else 0
  let pct := if 1 < s.length then (current - prevC) / prevC * 100 else 0
  let z := z_score sqrtF s
  { name := nm
    price := current
    change := change
    pct := pct
    z := z
    prob := phiF |z| * 100
    risk := classify z
    rsi := rsiLast s
    drawdown := drawdown s
    ticker_key := nm }

/-- The watchlist of lines 10-21 of main.py: display name paired with the
    provider symbol. -/
def tickers : List (String × String) :=
  [("S&P500", "^GSPC"),
   ("VIX指数", "^VIX"),
   ("FANG+", "FNGS"),
   ("2244(US Tech)", "2244.T"),
   ("米国10年債利回り", "^TNX"),
   ("HYG(ハイ債)", "HYG"),
   ("LQD(適格債)", "LQD"),
   ("ゴールド(GLDM)", "GLDM"),
   ("ドル円", "JPY=X"),
   ("ドル指数", "DX-Y.NYB")]

/-- Outcome of one provider call for one ticker, covering both failure modes
    handled by the loop of lines 50-98: an exception anywhere in the per-ticker
    pipeline (caught on line 97) or a returned data frame, possibly empty
    (skipped on lines 54-56). -/
inductive Outcome where
  | data : List ℚ → Outcome
  | exn
deriving DecidableEq

/-- The per-ticker loop of lines 50-98 over an explicit watchlist, producing
    results_list and the per-instrument columns written into new_row
    (line 95).  Order of this recursion matches iteration order. -/
def runEngineL (sqrtF phiF : ℚ → ℚ) (f : String → Outcome) :
    List (String × String) → List IndicatorResult × List (String × ℚ)
  | [] => ([], [])
  | (nm, sym) :: rest =>
    let tl := runEngineL sqrtF phiF f rest
    match f sym with
    | .exn => tl
    | .data s =>
      if s = [] then tl
      else (mkResult sqrtF phiF nm s :: tl.1, (nm, currentOf s) :: tl.2)

/-- The engine run over the actual watchlist. -/
def runEngine (sqrtF phiF : ℚ → ℚ) (f : String → Outcome) :
    List IndicatorResult × List (String × ℚ) :=
  runEngineL sqrtF phiF f tickers

/-- Character-list test: p begins the list h. -/
def leadsChars : List Char → List Char → Bool
  | [], _ => true
  | _ :: _, [] => false
  | p :: ps, h :: hs => p == h && leadsChars ps hs

/-- Character-list test: p occurs contiguously somewhere in h. -/
def occursChars (p : List Char) : List Char → Bool
  | [] => p.isEmpty
  | c :: cs => leadsChars p (c :: cs) || occursChars p cs

/-- Python substring test q in s, as used on lines 101-102. -/
def containsStr (q s : String) : Bool := occursChars q.toList s.toList

/-- Line 101: first result whose name contains "HYG". -/
def findHYG (rs : List IndicatorResult) : Option IndicatorResult :=
  rs.find? (fun x => containsStr "HYG" x.name)

/-- Line 102: first result whose name contains "LQD". -/
def findLQD (rs : List IndicatorResult) : Option IndicatorResult :=
  rs.find? (fun x => containsStr "LQD" x.name)

/-- Line 103: hyg.price / lqd.price if both found and the LQD price is
    nonzero, else 0. -/
def ratio_val (rs : List IndicatorResult) : ℚ :=
  match findHYG rs, findLQD rs with
  | some h, some l => if l.price ≠ 0 then h.price / l.price else 0
  | _, _ => 0

/-- One row of the history table: the timestamp key (the Date index) and the
    named numeric columns. -/
structure Snap where
  key : String
  cols : List (String × ℚ)
deriving DecidableEq, Repr

/-- The new_row built on lines 47, 95 and 104: instrument columns from the
    run plus the composite HYG/LQD column, keyed by the timestamp. -/
def newSnapshot (ts : String) (out : List IndicatorResult × List (String × ℚ)) : Snap :=
  ⟨ts, out.2 ++ [("HYG/LQD", ratio_val out.1)]⟩

/-- Line 110 of main.py, t[~t.index.duplicated(keep="last")]: keep a row
    exactly when no later row carries the same key, preserving order. -/
def keepLast : List Snap → List Snap
  | [] => []
  | r :: rest =>
    (if rest.any (fun x => x.key == r.key) then [] else [r]) ++ keepLast rest

/-- Lines 108-110 of main.py: concatenate the new row onto the loaded table,
    then de-duplicate keys keeping the last occurrence. -/
def appendSnap (h : List Snap) (r : Snap) : List Snap := keepLast (h ++ [r])

/-- State of the persisted history file as seen by lines 38-44: absent,
    present but unreadable by read_csv, or well-formed with table t. -/
inductive Persisted where
  | absent
  | corrupt
  | good : List Snap → Persisted

/-- Lines 38-44 of main.py: read the table when the file exists and parses,
    and fall back to an empty table on a missing file or on any read_csv
    exception. -/
def loadHistory : Persisted → List Snap
  | .absent => []
  | .corrupt => []
  | .good t => t

/-- A concrete successful HYG result used to exercise the composite ratio. -/
def resHYG : IndicatorResult :=
  ⟨"HYG(ハイ債)", 10, 0, 0, 0, 0, Tier.normal, none, 0, "HYG(ハイ債)"⟩

/-- A concrete successful LQD result used to exercise the composite ratio. -/
def resLQD : IndicatorResult :=
  ⟨"LQD(適格債)", 4, 0, 0, 0, 0, Tier.normal, none, 0, "LQD(適格債)"⟩

theorem mem_le_maxVal (x : ℚ) : ∀ l : List ℚ, x ∈ l → x ≤ maxVal l
  | [], h => absurd h (List.not_mem_nil x)
  | [y], h => by
    rw [List.mem_singleton] at h
    simp [maxVal, h]
  | y :: z :: t, h => by
    rcases List.mem_cons.1 h with h1 | h2
    · subst h1
      exact le_max_left _ _
    · exact le_trans (mem_le_maxVal x (z :: t) h2) (le_max_right _ _)

theorem getLast?_drop_eq (l : List ℚ) (k : Nat) (h : k < l.length) :
    (l.drop k).getLast? = l.getLast? := by
  have hne : l.drop k ≠ [] := by
    intro hc
    have := List.drop_eq_nil_iff.1 hc
    omega
  obtain ⟨x, hx⟩ := Option.isSome_iff_exists.1 (List.getLast?_isSome.2 hne)
  conv_rhs => rw [← List.take_append_drop k l]
  rw [List.getLast?_append, hx]
  rfl

theorem currentOf_mem_tail63 (s : List ℚ) (hs : s ≠ []) : currentOf s ∈ tail63 s := by
  have hlen : s.length - 63 < s.length := by
    have := List.length_pos.2 hs
    omega
  have h1 : (tail63 s).getLast? = s.getLast? := getLast?_drop_eq s _ hlen
  have hne : tail63 s ≠ [] := by
    intro hc
    rw [hc] at h1
    exact hs (List.getLast?_eq_none_iff.1 h1.symm)
  have h2 : currentOf s = (tail63 s).getLastD 0 := by
    rw [currentOf, List.getLastD_eq_getLast?, List.getLastD_eq_getLast?, h1]
  rw [h2]
  obtain ⟨x, hx⟩ := Option.isSome_iff_exists.1 (List.getLast?_isSome.2 hne)
  rw [List.getLastD_eq_getLast?, hx]
  exact List.mem_of_getLast?_eq_some hx

theorem currentOf_le_max63 (s : List ℚ) (hs : s ≠ []) : currentOf s ≤ max63 s :=
  mem_le_maxVal _ _ (currentOf_mem_tail63 s hs)

end MarketSniper
namespace MarketSniper

/-- C1: classify is total and deterministic, assigning exactly one tier by
    bands on the absolute z-score: at most 3/2 gives Normal, above 3/2 and at
    most 2 gives Caution, above 2 gives Danger; exactly 3/2 (either sign) is
    Normal and exactly 2 (either sign) is Caution. -/
theorem c1_classifier_bands :
    (∀ z : ℚ,
      (|z| ≤ 3 / 2 → classify z = Tier.normal) ∧
      (3 / 2 < |z| → |z| ≤ 2 → classify z = Tier.caution) ∧
      (2 < |z| → classify z = Tier.danger)) ∧
    classify (3 / 2) = Tier.normal ∧ classify (-(3 / 2)) = Tier.normal ∧
    classify 2 = Tier.caution ∧ classify (-2) = Tier.caution := by
  refine ⟨fun z => ⟨?_, ?_, ?_⟩, ?_, ?_, ?_, ?_⟩ <;>
    first
    | (intro h
       simp only [classify]
       split_ifs <;> first | rfl | (exfalso; linarith))
    | (intro h1 h2
       simp only [classify]
       split_ifs <;> first | rfl | (exfalso; linarith))
    | (norm_num [classify, abs, max_def])

/-- C1 witness: a strictly interior point of the Caution band. -/
theorem c1_witness : classify (7 / 4) = Tier.caution :=
  (c1_classifier_bands.1 (7 / 4)).2.1 (by norm_num [abs, max_def])
    (by norm_num [abs, max_def])

/-- C2: the tier depends only on the absolute z-score and is monotone in it
    on the severity order Normal < Caution < Danger; in the per-instrument
    record the tier is exactly classify of the z field, so the rsi and
    drawdown fields never influence it. -/
theorem c2_monotone :
    (∀ z : ℚ, classify z = classify |z|) ∧
    (∀ z1 z2 : ℚ, |z1| ≤ |z2| →
      (classify z1).severity ≤ (classify z2).severity) ∧
    (∀ (sq ph : ℚ → ℚ) (nm : String) (s : List ℚ),
      (mkResult sq ph nm s).risk = classify ((mkResult sq ph nm s).z)) := by
  refine ⟨?_, ?_, ?_⟩
  · intro z
    simp only [classify, abs_abs]
  · intro z1 z2 h
    simp only [classify]
    split_ifs <;> simp only [Tier.severity] <;>
      first | (exfalso; linarith) | norm_num
  · intro sq ph nm s
    rfl

/-- C2 witness: monotonicity applied at z1 = 1 and z2 = 3. -/
theorem c2_witness : (classify 1).severity ≤ (classify 3).severity :=
  c2_monotone.2.1 1 3 (by norm_num [abs, max_def])

/-- C9: loading the history never fails the run: a missing file and an
    unreadable file both give the empty table, a well-formed file gives its
    contents. -/
theorem c9_load_total :
    loadHistory Persisted.absent = [] ∧ loadHistory Persisted.corrupt = [] ∧
    ∀ t, loadHistory (Persisted.good t) = t :=
  ⟨rfl, rfl, fun _ => rfl⟩


/-- C6 counterexample: a two-point series is shorter than the 63-bar window,
    yet the computed drawdown is -50, not the sentinel 0 the claim states. -/
theorem c6_cex :
    ([100, 50] : List ℚ).length < 63 ∧ drawdown [100, 50] ≠ 0 := by
  norm_num [drawdown, max63, tail63, maxVal, currentOf]

/-- C6 amended: on a non-empty series shorter than 63 points the calculator
    does not fail, and the drawdown is computed over all available bars (the
    trailing window is the whole series), not defined as 0. -/
theorem c6_amended (s : List ℚ) (hne : s ≠ []) (hlen : s.length < 63) :
    drawdown s = (currentOf s - maxVal s) / maxVal s * 100 := by
  have h63 : s.length - 63 = 0 := by omega
  simp [drawdown, max63, tail63, h63]

/-- C6 amended witness: the two-point series [100, 50]. -/
theorem c6_witness :
    ([100, 50] : List ℚ) ≠ [] ∧ ([100, 50] : List ℚ).length < 63 ∧
    drawdown [100, 50] =
      (currentOf [100, 50] - maxVal [100, 50]) / maxVal [100, 50] * 100 :=
  ⟨by simp, by norm_num, c6_amended [100, 50] (by simp) (by norm_num)⟩

/-- C7 counterexample: on the all-negative series [-1, -2] the trailing
    maximum is -1, and the drawdown evaluates to +100, not ≤ 0. -/
theorem c7_cex :
    drawdown [(-1 : ℚ), -2] = 100 ∧ ¬ drawdown [(-1 : ℚ), -2] ≤ 0 := by
  norm_num [drawdown, max63, tail63, maxVal, currentOf]

/-- C7 amended: on every non-empty series the drawdown equals
    (current - max63) / max63 * 100, and it is nonpositive whenever the
    trailing-63-bar maximum is positive (in particular for any series of
    positive prices); the maximum does include the current last price. -/
theorem c7_drawdown (s : List ℚ) (hne : s ≠ []) :
    drawdown s = (currentOf s - max63 s) / max63 s * 100 ∧
    currentOf s ≤ max63 s ∧
    (0 < max63 s → drawdown s ≤ 0) := by
  have hle : currentOf s ≤ max63 s := currentOf_le_max63 s hne
  refine ⟨rfl, hle, fun hpos => ?_⟩
  have hq : (currentOf s - max63 s) / max63 s ≤ 0 :=
    div_nonpos_of_nonpos_of_nonneg (by linarith) hpos.le
  have := mul_le_mul_of_nonneg_right hq (by norm_num : (0 : ℚ) ≤ 100)
  rw [drawdown]
  linarith [this]

/-- C7 witness: the positive series [4, 2] has drawdown -50 ≤ 0. -/
theorem c7_witness :
    ([4, 2] : List ℚ) ≠ [] ∧ (0 : ℚ) < max63 [4, 2] ∧ drawdown [4, 2] ≤ 0 :=
  ⟨by simp, by norm_num [max63, tail63, maxVal],
   (c7_drawdown [4, 2] (by simp)).2.2 (by norm_num [max63, tail63, maxVal])⟩

/-- C8: on a constant series of at least two points the sample variance is 0,
    so the guarded z-score is defined as 0 and the resulting tier is Normal
    (for any model of the floating square root that sends 0 to 0, as IEEE
    sqrt does).  Single-point series are excluded: there pandas std(ddof=1)
    is NaN, NaN != 0 holds in Python, and line 68 computes z as NaN, an
    undefined value the claim scopes out by requiring standard deviation 0. -/
theorem c8_constant_series (sq ph : ℚ → ℚ) (hsq : sq 0 = 0) (nm : String)
    (s : List ℚ) (c : ℚ) (hlen2 : 2 ≤ s.length) (hconst : ∀ x ∈ s, x = c) :
    (mkResult sq ph nm s).z = 0 ∧ (mkResult sq ph nm s).risk = Tier.normal := by
  have hlen : (s.length : ℚ) ≠ 0 := by
    have h0 : s.length ≠ 0 := by omega
    exact_mod_cast h0
  have hmean : meanOf s = c := by
    have hsum : s.sum = s.length • c := List.sum_eq_card_nsmul s c hconst
    rw [meanOf, hsum, nsmul_eq_mul, mul_comm, mul_div_assoc, div_self hlen,
      mul_one]
  have hvar : svar s = 0 := by
    rw [svar]
    have hz : (s.map fun x => (x - meanOf s) ^ 2).sum = 0 := by
      apply List.sum_eq_zero
      intro y hy
      rcases List.mem_map.1 hy with ⟨x, hx, rfl⟩
      rw [hconst x hx, hmean]
      ring
    rw [hz, zero_div]
  have hzs : z_score sq s = 0 := by
    rw [z_score, hvar, hsq]
    simp
  have hz' : (mkResult sq ph nm s).z = z_score sq s := rfl
  have hr' : (mkResult sq ph nm s).risk = classify (z_score sq s) := rfl
  rw [hz', hr', hzs]
  exact ⟨rfl, by norm_num [classify, abs, max_def]⟩

/-- C8 witness: the constant series [5, 5, 5] with the identity standing in
    for the square root. -/
theorem c8_witness :
    (mkResult (fun x => x) (fun x => x) "A" [5, 5, 5]).z = 0 ∧
    (mkResult (fun x => x) (fun x => x) "A" [5, 5, 5]).risk = Tier.normal :=
  c8_constant_series (fun x => x) (fun x => x) rfl "A" [5, 5, 5] 5 (by norm_num)
    (by intro x hx; rcases List.mem_cons.1 hx with h | hx' <;>
        first | exact h | (rcases List.mem_cons.1 hx' with h | hx'' <;>
          first | exact h | simpa using hx''))


theorem keepLast_filter_eq (k : String) :
    ∀ l : List Snap, (keepLast l).filter (fun x => x.key == k) =
      ((l.reverse.find? (fun x => x.key == k)).toList)
  | [] => rfl
  | r :: rest => by
    rw [keepLast, List.filter_append, keepLast_filter_eq k rest,
      List.reverse_cons, List.find?_append]
    rcases hf : rest.reverse.find? (fun x => x.key == k) with _ | x
    · have hnone : ∀ x ∈ rest, ¬ (x.key == k) = true := by
        intro y hy
        exact List.find?_eq_none.1 hf y (List.mem_reverse.2 hy)
      rcases hpr : (r.key == k) with _ | _
      · have : [r].find? (fun x => x.key == k) = none := by
          simp [List.find?, hpr]
        simp only [Option.none_or, this, Option.toList_none, List.append_nil]
        rcases hany : rest.any (fun x => x.key == r.key) with _ | _ <;>
          simp [List.filter, hpr]
      · have hrk : r.key = k := by
          simpa using hpr
        have hany : rest.any (fun x => x.key == r.key) = false := by
          rw [List.any_eq_false]
          intro y hy
          rw [hrk]
          exact hnone y hy
        have : [r].find? (fun x => x.key == k) = some r := by
          simp [List.find?, hpr]
        simp [hany, List.filter, hpr, this, hf]
    · have hx := List.find?_some hf
      have hxmem : x ∈ rest := List.mem_reverse.1 (List.mem_of_find?_eq_some hf)
      simp only [hf, Option.or_some, Option.toList_some]
      rcases hpr : (r.key == k) with _ | _
      · rcases hany : rest.any (fun x => x.key == r.key) with _ | _ <;>
          simp [List.filter, hpr]
      · have hrk : r.key = k := by simpa using hpr
        have hany : rest.any (fun x => x.key == r.key) = true := by
          rw [List.any_eq_true]
          exact ⟨x, hxmem, by rw [hrk]; exact hx⟩
        simp [hany]

theorem appendSnap_filter (h : List Snap) (r : Snap) (k : String) :
    (appendSnap h r).filter (fun x => x.key == k) =
      (((h ++ [r]).reverse.find? (fun x => x.key == k)).toList) :=
  keepLast_filter_eq k (h ++ [r])

theorem appendSnap_filter_len (h : List Snap) (r : Snap) (k : String) :
    ((appendSnap h r).filter (fun x => x.key == k)).length ≤ 1 := by
  rw [appendSnap_filter]
  generalize (h ++ [r]).reverse.find? (fun x => x.key == k) = o
  rcases o with _ | x <;> simp

theorem appendSnap_keys_nodup (h : List Snap) (r : Snap) :
    ((appendSnap h r).map Snap.key).Nodup := by
  rw [List.nodup_iff_count_le_one]
  intro a
  rw [List.count_eq_countP, List.countP_map]
  have : ((fun x => x == a) ∘ Snap.key) = fun x : Snap => x.key == a := rfl
  rw [this, List.countP_eq_length_filter]
  exact appendSnap_filter_len h r a


/-- C4: appending two snapshots with the same key leaves exactly one row for
    that key, holding the second write, and after any single append every key
    occurs at most once. -/
theorem c4_append_keep_newest :
    (∀ (h : List Snap) (r1 r2 : Snap), r1.key = r2.key →
      (appendSnap (appendSnap h r1) r2).filter (fun x => x.key == r2.key) =
        [r2]) ∧
    (∀ (h : List Snap) (r : Snap) (k : String),
      ((appendSnap h r).filter (fun x => x.key == k)).length ≤ 1) := by
  constructor
  · intro h r1 r2 _
    rw [appendSnap_filter, List.reverse_append]
    simp
  · exact appendSnap_filter_len

/-- C4 witness: two writes under the key t; only the second survives. -/
theorem c4_witness :
    (⟨"t", [("a", 1)]⟩ : Snap).key = (⟨"t", [("a", 2)]⟩ : Snap).key ∧
    (appendSnap (appendSnap [] ⟨"t", [("a", 1)]⟩) ⟨"t", [("a", 2)]⟩).filter
        (fun x => x.key == (⟨"t", [("a", 2)]⟩ : Snap).key) =
      [⟨"t", [("a", 2)]⟩] :=
  ⟨rfl, c4_append_keep_newest.1 [] ⟨"t", [("a", 1)]⟩ ⟨"t", [("a", 2)]⟩ rfl⟩

/-- C10: the de-duplication pass covers the whole merged table: after any
    merge the key column is duplicate-free even when the loaded table already
    held duplicate keys, and the row kept for a key is the last occurrence in
    the concatenated table. -/
theorem c10_dedup_whole_table :
    (∀ (h : List Snap) (r : Snap), ((appendSnap h r).map Snap.key).Nodup) ∧
    (∀ (h : List Snap) (r : Snap) (k : String),
      (appendSnap h r).filter (fun x => x.key == k) =
        (((h ++ [r]).reverse.find? (fun x => x.key == k)).toList)) :=
  ⟨appendSnap_keys_nodup, appendSnap_filter⟩


theorem engineL_names_sub (sq ph : ℚ → ℚ) (f : String → Outcome) (n : String) :
    ∀ L : List (String × String),
      (n ∈ (runEngineL sq ph f L).1.map IndicatorResult.name →
        n ∈ L.map Prod.fst) ∧
      (n ∈ (runEngineL sq ph f L).2.map Prod.fst → n ∈ L.map Prod.fst)
  | [] => by simp [runEngineL]
  | (nm, sym) :: rest => by
    have ih := engineL_names_sub sq ph f n rest
    simp only [runEngineL]
    rcases hf : f sym with s | _
    · rcases hs : (decide (s = [])) with _ | _
      · have hs' : ¬ s = [] := of_decide_eq_false hs
        simp only [if_neg hs', List.map_cons, List.mem_cons]
        constructor
        · rintro (h1 | h2)
          · exact Or.inl (by simpa [mkResult] using h1)
          · exact Or.inr (ih.1 h2)
        · rintro (h1 | h2)
          · exact Or.inl h1
          · exact Or.inr (ih.2 h2)
      · have hs' : s = [] := of_decide_eq_true hs
        simp only [if_pos hs', List.map_cons, List.mem_cons]
        exact ⟨fun h => Or.inr (ih.1 h), fun h => Or.inr (ih.2 h)⟩
    · simp only [List.map_cons, List.mem_cons]
      exact ⟨fun h => Or.inr (ih.1 h), fun h => Or.inr (ih.2 h)⟩

theorem engineL_skip (sq ph : ℚ → ℚ) (f : String → Outcome) :
    ∀ (L : List (String × String)) (n s : String),
      (L.map Prod.fst).Nodup → (n, s) ∈ L →
      (f s = Outcome.exn ∨ f s = Outcome.data []) →
      n ∉ (runEngineL sq ph f L).1.map IndicatorResult.name ∧
      n ∉ (runEngineL sq ph f L).2.map Prod.fst
  | [], n, s, _, hmem, _ => absurd hmem (List.not_mem_nil _)
  | (nm, sym) :: rest, n, s, hnd, hmem, hfail => by
    have hndrest : (rest.map Prod.fst).Nodup := (List.nodup_cons.1 hnd).2
    have hnmem : nm ∉ rest.map Prod.fst := (List.nodup_cons.1 hnd).1
    rcases List.mem_cons.1 hmem with heq | hrest
    · injection heq with hn hsym
      subst hn
      subst hsym
      have hout : n ∉ rest.map Prod.fst := hnmem
      have hsub := engineL_names_sub sq ph f n rest
      have h1 : n ∉ (runEngineL sq ph f rest).1.map IndicatorResult.name :=
        fun hc => hout (hsub.1 hc)
      have h2 : n ∉ (runEngineL sq ph f rest).2.map Prod.fst :=
        fun hc => hout (hsub.2 hc)
      simp only [runEngineL]
      rcases hfail with hf | hf <;> rw [hf] <;> exact ⟨h1, h2⟩
    · have hnrest := engineL_skip sq ph f rest n s hndrest hrest hfail
      simp only [runEngineL]
      rcases hf : f sym with d | _
      · rcases hd : (decide (d = [])) with _ | _
        · have hd' : ¬ d = [] := of_decide_eq_false hd
          have hnnm : n ≠ nm := by
            intro hc
            subst hc
            exact hnmem (List.mem_map.2 ⟨(n, s), hrest, rfl⟩)
          simp only [if_neg hd', List.map_cons, List.mem_cons, mkResult]
          push_neg
          exact ⟨⟨hnnm, hnrest.1⟩, ⟨hnnm, hnrest.2⟩⟩
        · have hd' : d = [] := of_decide_eq_true hd
          simpa [if_pos hd'] using hnrest
      · exact hnrest

theorem engineL_mem (sq ph : ℚ → ℚ) (f : String → Outcome) :
    ∀ (L : List (String × String)) (n s : String) (d : List ℚ),
      (n, s) ∈ L → f s = Outcome.data d → d ≠ [] →
      n ∈ (runEngineL sq ph f L).1.map IndicatorResult.name
  | [], n, s, d, hmem, _, _ => absurd hmem (List.not_mem_nil _)
  | (nm, sym) :: rest, n, s, d, hmem, hfd, hdne => by
    rcases List.mem_cons.1 hmem with heq | hrest
    · injection heq with hn hsym
      subst hn
      subst hsym
      simp only [runEngineL, hfd, if_neg hdne, List.map_cons, List.mem_cons]
      exact Or.inl rfl
    · have ih := engineL_mem sq ph f rest n s d hrest hfd hdne
      simp only [runEngineL]
      rcases hf : f sym with e | _
      · rcases he : (decide (e = [])) with _ | _
        · have he' : ¬ e = [] := of_decide_eq_false he
          simp only [if_neg he', List.map_cons, List.mem_cons]
          exact Or.inr ih
        · have he' : e = [] := of_decide_eq_true he
          simpa [if_pos he'] using ih
      · exact ih


theorem tickers_names_nodup : (tickers.map Prod.fst).Nodup := by decide

theorem tickers_names_ne_ratio_col : ∀ p ∈ tickers, p.1 ≠ "HYG/LQD" := by
  decide

/-- C5: failure isolation is per instrument: a watched instrument whose fetch
    raises or returns no data contributes no result and no column to the new
    snapshot, while any instrument with non-empty data appears in the result
    set; the run itself is a total function and never aborts. -/
theorem c5_failure_isolation (sq ph : ℚ → ℚ) (f : String → Outcome)
    (ts n s : String) (hmem : (n, s) ∈ tickers) :
    ((f s = Outcome.exn ∨ f s = Outcome.data []) →
      n ∉ (runEngine sq ph f).1.map IndicatorResult.name ∧
      n ∉ ((newSnapshot ts (runEngine sq ph f)).cols.map Prod.fst)) ∧
    (∀ d, f s = Outcome.data d → d ≠ [] →
      n ∈ (runEngine sq ph f).1.map IndicatorResult.name) := by
  constructor
  · intro hfail
    have hskip := engineL_skip sq ph f tickers n s tickers_names_nodup hmem hfail
    refine ⟨hskip.1, ?_⟩
    intro hc
    simp only [newSnapshot, List.map_append, List.mem_append] at hc
    rcases hc with hc | hc
    · exact hskip.2 hc
    · have : n = "HYG/LQD" := by simpa using hc
      exact tickers_names_ne_ratio_col (n, s) hmem this
  · intro d hfd hdne
    exact engineL_mem sq ph f tickers n s d hmem hfd hdne

/-- C5 witness: a provider that raises for every ticker leaves the HYG
    instrument out of the results and out of the snapshot columns. -/
theorem c5_witness :
    "HYG(ハイ債)" ∉
      (runEngine (fun x => x) (fun x => x) (fun _ => Outcome.exn)).1.map
        IndicatorResult.name ∧
    "HYG(ハイ債)" ∉
      ((newSnapshot "2026-01-01 00:00"
        (runEngine (fun x => x) (fun x => x) (fun _ => Outcome.exn))).cols.map
          Prod.fst) :=
  (c5_failure_isolation (fun x => x) (fun x => x) (fun _ => Outcome.exn)
    "2026-01-01 00:00" "HYG(ハイ債)" "HYG" (by decide)).1 (Or.inl rfl)

/-- C3: the composite ratio is the HYG price over the LQD price when both
    results are present and the LQD price is nonzero, and it is 0 when either
    result is absent or the LQD price is 0; all cases are values of a total
    function, not failures. -/
theorem c3_composite_ratio (rs : List IndicatorResult) :
    (∀ h l, findHYG rs = some h → findLQD rs = some l → l.price ≠ 0 →
      ratio_val rs = h.price / l.price) ∧
    (findHYG rs = none ∨ findLQD rs = none → ratio_val rs = 0) ∧
    (∀ l, findLQD rs = some l → l.price = 0 → ratio_val rs = 0) := by
  refine ⟨?_, ?_, ?_⟩
  · intro h l hh hl hnz
    simp [ratio_val, hh, hl, hnz]
  · intro hcase
    rcases hH : findHYG rs with _ | h0 <;> rcases hL : findLQD rs with _ | l0 <;>
      simp [ratio_val, hH, hL] <;> rcases hcase with hc | hc <;> simp_all
  · intro l hl hz
    rcases hH : findHYG rs with _ | h0 <;> simp [ratio_val, hH, hl, hz]

end MarketSniper

namespace MarketSniper

/-- C3 witness: a result set holding both instruments with prices 10 and 4. -/
theorem c3_witness :
    ratio_val [resHYG, resLQD] = resHYG.price / resLQD.price :=
  (c3_composite_ratio [resHYG, resLQD]).1 resHYG resLQD rfl rfl
    (by norm_num [resLQD])

end MarketSniper
